import Mathlib

/-
Verification development for the flock repository: a pipeline that ingests a
stream of social-media posts, normalizes each post into a canonical record,
resolves graph identities for the post, its author and its mentioned users,
and commits the record to a graph backend with a bounded retry policy.

The development shallowly embeds the two pipeline variants of the repository:

* namespace Part8 embeds the upsert-plan variant (the file with buildQuery,
  filterTweet over anaconda tweets, and the runInserter retry loop that
  submits a combined query+mutation request);
* namespace MainGo embeds the check-then-mutate variant of main.go
  (updateFilteredTweet, queryUser, equalsUser).

External collaborators (the Go time parser and the graph backend) are made
explicit parameters: timestamp parsing is a function argument returning the
formatted timestamp on success, and the backend is a function from attempt
index to the result classification the Go code branches on.
-/

namespace Flock

namespace Part8

/-- Embeds the twitterUser struct of the upsert variant. Default field values
are the Go zero values used by struct literals that omit fields. -/
structure TwitterUser where
  uid : String := ""
  dgraphType : String := ""
  userID : String := ""
  userName : String := ""
  screenName : String := ""
  description : String := ""
  friendsCount : Int := 0
  followersCount : Int := 0
  verified : Bool := false
  profileBannerURL : String := ""
  profileImageURL : String := ""
deriving Repr, DecidableEq

/-- Embeds the twitterTweet struct of the upsert variant. -/
structure TwitterTweet where
  uid : String := ""
  dgraphType : String := ""
  idStr : String := ""
  createdAt : String := ""
  message : String := ""
  urls : List String := []
  hashTags : List String := []
  author : TwitterUser := {}
  mention : List TwitterUser := []
  retweet : Bool := false
deriving Repr, DecidableEq

/-- The url entity of a raw anaconda tweet (only the field the code reads). -/
structure UrlEntity where
  expanded_url : String := ""
deriving Repr, DecidableEq

/-- The hashtag entity of a raw anaconda tweet. -/
structure HashtagEntity where
  text : String := ""
deriving Repr, DecidableEq

/-- The user-mention entity of a raw anaconda tweet. -/
structure MentionEntity where
  id_str : String := ""
  name : String := ""
  screen_name : String := ""
deriving Repr, DecidableEq

/-- The entities sub-object of a raw anaconda tweet. -/
structure TweetEntities where
  urls : List UrlEntity := []
  hashtags : List HashtagEntity := []
  user_mentions : List MentionEntity := []
deriving Repr, DecidableEq

/-- The user sub-object of a raw anaconda tweet (the fields the code reads). -/
structure AnacondaUser where
  idStr : String := ""
  name : String := ""
  screenName : String := ""
  description : String := ""
  friendsCount : Int := 0
  followersCount : Int := 0
  verified : Bool := false
  profileBannerURL : String := ""
  profileImageURL : String := ""
deriving Repr, DecidableEq

/-- The raw anaconda tweet (the fields filterTweet reads). -/
structure AnacondaTweet where
  createdAt : String := ""
  idStr : String := ""
  fullText : String := ""
  entities : TweetEntities := {}
  user : AnacondaUser := {}
  retweeted : Bool := false
deriving Repr, DecidableEq

/-- A message of the inbound stream channel: the interface-type switch of the
Go code distinguishes anaconda.Tweet values from every other message kind. -/
inductive StreamMessage where
  | tweet (t : AnacondaTweet)
  | other
deriving Repr, DecidableEq

/-- The two normalization failures of filterTweet: errNotATweet for a message
that is not a tweet, and the time.Parse error for an unparsable timestamp. -/
inductive NormalizeError where
  | notATweet
  | malformedTimestamp
deriving Repr, DecidableEq

/-- Embeds filterTweet of the upsert variant. The call
time.Parse(cTimeFormat, ...) followed by Format(cDgraphTimeFormat) is made
explicit as the parameter parse, which yields the formatted timestamp on
success and none on a parse failure. The three entity loops are folds that
mirror the Go loops: urls start from make([]string, len(urls)) (a slice of
len empty strings) and append; hashtags start from make([]string, 0) and
append only non-empty texts; mentions start from a nil slice and append. -/
def filterTweet (parse : String → Option String) (jsn : StreamMessage) :
    Except NormalizeError TwitterTweet :=
  match jsn with
  | StreamMessage.other => Except.error NormalizeError.notATweet
  | StreamMessage.tweet tweet =>
    match parse tweet.createdAt with
    | none => Except.error NormalizeError.malformedTimestamp
    | some createdAt =>
      let expandedURLs := tweet.entities.urls.foldl
        (fun acc url => acc ++ [url.expanded_url])
        (List.replicate tweet.entities.urls.length "")
      let hashTagTexts := tweet.entities.hashtags.foldl
        (fun acc tag => if tag.text ≠ "" then acc ++ [tag.text] else acc) []
      let userMentions := tweet.entities.user_mentions.foldl
        (fun acc m => acc ++ [{ userID := m.id_str, dgraphType := "User",
                                userName := m.name,
                                screenName := m.screen_name : TwitterUser }]) []
      Except.ok
        { idStr := tweet.idStr
          dgraphType := "Tweet"
          createdAt := createdAt
          message := tweet.fullText
          urls := expandedURLs
          hashTags := hashTagTexts
          author :=
            { userID := tweet.user.idStr
              dgraphType := "User"
              userName := tweet.user.name
              screenName := tweet.user.screenName
              description := tweet.user.description
              friendsCount := tweet.user.friendsCount
              followersCount := tweet.user.followersCount
              verified := tweet.user.verified
              profileBannerURL := tweet.user.profileBannerURL
              profileImageURL := tweet.user.profileImageURL }
          mention := userMentions
          retweet := tweet.retweeted }

/-- The post lookup sub-query of buildQuery (the tweetQuery format string). -/
def tweetQueryFmt (id : String) : String :=
  "t as var(func: eq(id_str, \"" ++ id ++ "\"))"

/-- The author lookup sub-query of buildQuery (the userQuery format string,
which quotes the user id). -/
def userQueryFmt (varName id : String) : String :=
  varName ++ " as var(func: eq(user_id, \"" ++ id ++ "\"))"

/-- The mention lookup sub-query of buildQuery (the inline format string of
the mention loop, which does not quote the user id). -/
def mentionQueryFmt (varName id : String) : String :=
  varName ++ " as var(func: eq(user_id, " ++ id ++ "))"

/-- First-match lookup in the users map of buildQuery. The Go map is embedded
as an association list; keys are inserted at most once, so first-match lookup
agrees with the Go map semantics. -/
def lookupVar : List (String × String) → String → Option String
  | [], _ => none
  | kv :: rest, id => if kv.1 = id then some kv.2 else lookupVar rest id

/-- The mention loop of buildQuery: walks the mention list with its index,
reusing the variable of an already-seen user id, and otherwise naming a fresh
variable, writing its lookup into slot index+2 of the query slice and
recording it in the users map. Returns the final query slice, the final users
map, and the mention list with the uid placeholders assigned. -/
def buildQueryLoop (ms : List TwitterUser) (i : Nat)
    (usersMap : List (String × String)) (query : List String) :
    List String × List (String × String) × List TwitterUser :=
  match ms with
  | [] => (query, usersMap, [])
  | user :: rest =>
    match lookupVar usersMap user.userID with
    | some name =>
      let r := buildQueryLoop rest (i + 1) usersMap query
      (r.1, r.2.1, { user with uid := "uid(" ++ name ++ ")" } :: r.2.2)
    | none =>
      let varName := "m" ++ toString (i + 1)
      let query2 := query.set (i + 2) (mentionQueryFmt varName user.userID)
      let r := buildQueryLoop rest (i + 1)
        (usersMap ++ [(user.userID, varName)]) query2
      (r.1, r.2.1, { user with uid := "uid(" ++ varName ++ ")" } :: r.2.2)

/-- The result of buildQuery: the tweet with placeholder references assigned,
the query slice (one slot per sub-query, empty-string slots for repeated
mentions), and the final joined query string. -/
structure UpsertPlan where
  tweet : TwitterTweet
  slots : List String
  finalQuery : String
deriving Repr, DecidableEq

/-- Embeds buildQuery of the upsert variant: a slice of length mentions+2 is
allocated (all slots the empty string), slot 0 receives the post lookup and
slot 1 the author lookup, the tweet and author receive the placeholders
uid(t) and uid(u), the users map starts with the author bound to u, and the
mention loop fills the remaining slots. The final query joins all slots with
newlines inside query braces. -/
def buildQuery (tweet : TwitterTweet) : UpsertPlan :=
  let query0 := List.replicate (tweet.mention.length + 2) ""
  let query1 := query0.set 0 (tweetQueryFmt tweet.idStr)
  let tweet1 := { tweet with uid := "uid(t)" }
  let query2 := query1.set 1 (userQueryFmt "u" tweet1.author.userID)
  let tweet2 := { tweet1 with author := { tweet1.author with uid := "uid(u)" } }
  let usersMap := [(tweet2.author.userID, "u")]
  let r := buildQueryLoop tweet2.mention 0 usersMap query2
  { tweet := { tweet2 with mention := r.2.2 }
    slots := r.1
    finalQuery := "query \x7b" ++ String.intercalate "\n" r.1 ++ "\x7d" }

/-- Classification of one txn.Do result, matching the error-substring switch
of runInserter: success, connection refused, transaction already finalized,
the retry-advised conflict, or any other error. -/
inductive DgraphResult where
  | ok
  | connectionRefused
  | alreadyFinalized
  | retryAdvised
  | otherError (msg : String)
deriving Repr, DecidableEq

/-- The terminal action of the runInserter switch for one record: which
branch finally handled the record. committed and committedDeferred are the
success branches (Commits and LeakedCommits counters), transientWait is the
connection-refused branch (log, sleep, no counter), failedTxnReuse is the
already-finalized branch (Failures counter), and failedDgraph is the default
branch (ErrorsDgraph counter, raw error logged). -/
inductive CommitOutcome where
  | committed
  | committedDeferred
  | transientWait
  | failedTxnReuse
  | failedDgraph (e : DgraphResult)
deriving Repr, DecidableEq

/-- Observable result of the RETRY block for one record: how many txn.Do
attempts were made, how often the Retries counter was bumped, the sleep
durations (milliseconds) taken in order, and the terminal branch. -/
structure MutationResult where
  attempts : Nat
  retriesCounted : Nat
  sleepsMs : List Nat
  outcome : CommitOutcome
deriving Repr, DecidableEq

/-- Embeds the RETRY block of runInserter. The backward goto guarded by the
retry boolean is rendered as a recursion on the number of retries still
allowed (the boolean retry=true is one remaining retry); k is the index of
the current attempt. A retry-advised error with no retry left falls into the
default branch, exactly as the Go switch arm requires retry to be true. -/
def runAttempts (backend : Nat → DgraphResult) (commitNow : Bool) :
    Nat → Nat → MutationResult
  | retriesLeft, k =>
    match backend k with
    | DgraphResult.ok =>
      { attempts := k + 1, retriesCounted := 0, sleepsMs := []
        outcome := if commitNow then CommitOutcome.committed
                   else CommitOutcome.committedDeferred }
    | DgraphResult.connectionRefused =>
      { attempts := k + 1, retriesCounted := 0, sleepsMs := [5000]
        outcome := CommitOutcome.transientWait }
    | DgraphResult.alreadyFinalized =>
      { attempts := k + 1, retriesCounted := 0, sleepsMs := []
        outcome := CommitOutcome.failedTxnReuse }
    | DgraphResult.retryAdvised =>
      match retriesLeft with
      | r + 1 =>
        let rest := runAttempts backend commitNow r (k + 1)
        { attempts := rest.attempts, retriesCounted := rest.retriesCounted + 1
          sleepsMs := 100 :: rest.sleepsMs, outcome := rest.outcome }
      | 0 =>
        { attempts := k + 1, retriesCounted := 0, sleepsMs := []
          outcome := CommitOutcome.failedDgraph DgraphResult.retryAdvised }
    | DgraphResult.otherError m =>
      { attempts := k + 1, retriesCounted := 0, sleepsMs := []
        outcome := CommitOutcome.failedDgraph (DgraphResult.otherError m) }

/-- The RETRY block entered as the Go code enters it: retry = true (one
retry available), first attempt index 0. -/
def runMutation (backend : Nat → DgraphResult) (commitNow : Bool) :
    MutationResult :=
  runAttempts backend commitNow 1 0

/-- The inserter-side counters of progStats (the writer-side fields are not
touched by the embedded functions and are omitted). -/
structure ProgStats where
  tweets : Nat := 0
  commits : Nat := 0
  leakedCommits : Nat := 0
  retries : Nat := 0
  failures : Nat := 0
  errorsJSON : Nat := 0
  errorsDgraph : Nat := 0
deriving Repr, DecidableEq

/-- Counter increments performed by the runInserter switch for one record,
given the observable result of its RETRY block. -/
def statsDelta (r : MutationResult) : ProgStats :=
  { tweets := 0
    commits := match r.outcome with
               | CommitOutcome.committed => 1
               | _ => 0
    leakedCommits := match r.outcome with
                     | CommitOutcome.committedDeferred => 1
                     | _ => 0
    retries := r.retriesCounted
    failures := match r.outcome with
                | CommitOutcome.failedTxnReuse => 1
                | _ => 0
    errorsJSON := 0
    errorsDgraph := match r.outcome with
                    | CommitOutcome.failedDgraph _ => 1
                    | _ => 0 }

/-- Fieldwise sum of two counter records. -/
def addStats (a b : ProgStats) : ProgStats :=
  { tweets := a.tweets + b.tweets
    commits := a.commits + b.commits
    leakedCommits := a.leakedCommits + b.leakedCommits
    retries := a.retries + b.retries
    failures := a.failures + b.failures
    errorsJSON := a.errorsJSON + b.errorsJSON
    errorsDgraph := a.errorsDgraph + b.errorsDgraph }

/-- Embeds one loop iteration of runInserter for one inbound message: count
the message, normalize it (a failure counts one json error and moves on
without touching the backend), build the upsert plan, and run the mutation
with the retry policy. commitNow stands for the evaluated coin toss on the
noCommitRatio option. Returns the counter increments of the iteration and
the list of backend requests submitted (one final query string per txn.Do
attempt; the same request is resubmitted on the retry). -/
def runInserterStep (parse : String → Option String)
    (backend : Nat → DgraphResult) (commitNow : Bool)
    (msg : StreamMessage) : ProgStats × List String :=
  let ingested : ProgStats := { tweets := 1 }
  match filterTweet parse msg with
  | Except.error _ => ({ ingested with errorsJSON := 1 }, [])
  | Except.ok ft =>
    let plan := buildQuery ft
    let r := runMutation backend commitNow
    (addStats ingested (statsDelta r), List.replicate r.attempts plan.finalQuery)

/-- Number of non-empty strings among the query slots (the empty slots left
by repeated mentions contribute no lookup to the joined query). -/
def countNonEmpty : List String → Nat
  | [] => 0
  | s :: rest => if s = "" then countNonEmpty rest else countNonEmpty rest + 1

/-- How many ids of a list are new with respect to an already-seen list,
counting each distinct new id once (specification device for the users map
of buildQuery). -/
def countNew : List String → List String → Nat
  | [], _ => 0
  | id :: rest, seen =>
    if id ∈ seen then countNew rest seen
    else 1 + countNew rest (seen ++ [id])

/-- The slots the mention loop of buildQuery writes, one slot per mention,
in order: an empty slot for an already-seen user id and the fresh lookup
otherwise (specification device for buildQueryLoop). -/
def slotsOf : List TwitterUser → Nat → List (String × String) → List String
  | [], _, _ => []
  | user :: rest, i, usersMap =>
    match lookupVar usersMap user.userID with
    | some _ => "" :: slotsOf rest (i + 1) usersMap
    | none =>
      mentionQueryFmt ("m" ++ toString (i + 1)) user.userID ::
        slotsOf rest (i + 1)
          (usersMap ++ [(user.userID, "m" ++ toString (i + 1))])

/-- A timestamp parser that accepts every input (stand-in for a raw post
whose creation time parses against the fixed format). -/
def parseAll : String → Option String :=
  fun _ => some "2018-10-10T20:19:24+00:00"

/-- A timestamp parser that rejects every input (stand-in for a raw post
whose creation time fails the fixed format). -/
def parseNone : String → Option String :=
  fun _ => none

/-- A raw tweet carrying the hashtag texts a, empty, a. -/
def rawDupHashtags : AnacondaTweet :=
  { createdAt := "Wed Oct 10 20:19:24 +0000 2018"
    idStr := "1050118621198921728"
    fullText := "hello"
    entities := { hashtags := [{ text := "a" }, { text := "" }, { text := "a" }] }
    user := { idStr := "12", name := "n", screenName := "s" } }

/-- A raw tweet carrying one url entity. -/
def rawOneUrl : AnacondaTweet :=
  { createdAt := "Wed Oct 10 20:19:24 +0000 2018"
    idStr := "1050118621198921729"
    fullText := "link"
    entities := { urls := [{ expanded_url := "https://example.com/x" }] }
    user := { idStr := "12", name := "n", screenName := "s" } }

/-- A raw tweet mentioning the same user id twice. -/
def rawRepeatMentions : AnacondaTweet :=
  { createdAt := "Wed Oct 10 20:19:24 +0000 2018"
    idStr := "1050118621198921730"
    fullText := "hi"
    entities := { user_mentions := [{ id_str := "77", name := "w", screen_name := "w7" },
                                    { id_str := "77", name := "w", screen_name := "w7" }] }
    user := { idStr := "12", name := "n", screenName := "s" } }

/-- A canonical record whose author id recurs among the mentions and whose
mention list repeats another id. -/
def recordForPlan : TwitterTweet :=
  { idStr := "900", dgraphType := "Tweet", createdAt := "2018-10-10T20:19:24+00:00"
    author := { userID := "ua", dgraphType := "User", userName := "a" }
    mention := [{ userID := "ua", dgraphType := "User" },
                { userID := "u2", dgraphType := "User" },
                { userID := "u2", dgraphType := "User" }] }

end Part8

namespace MainGo

/-- Embeds the twitterUser struct of the check-then-mutate variant of
main.go (no dgraph.type field and no followers count in this variant).
Default field values are the Go zero values. -/
structure TwitterUser where
  uid : String := ""
  userID : String := ""
  userName : String := ""
  screenName : String := ""
  description : String := ""
  friendsCount : Int := 0
  verified : Bool := false
  profileBannerURL : String := ""
  profileImageURL : String := ""
deriving Repr, DecidableEq

/-- Embeds the twitterTweet struct of the check-then-mutate variant. -/
structure TwitterTweet where
  uid : String := ""
  idStr : String := ""
  createdAt : String := ""
  message : String := ""
  urls : List String := []
  hashTags : List String := []
  author : TwitterUser := {}
  mention : List TwitterUser := []
  retweet : Bool := false
deriving Repr, DecidableEq

/-- Backend state visible to the two read queries of this variant: the set
of committed Post nodes is tracked by their id_str values, and the stored
User nodes by their full records. The query for a tweet id returns its
matches in posts, the query for a user id its matches in users. -/
structure DB where
  posts : List String := []
  users : List TwitterUser := []
deriving Repr, DecidableEq

/-- The error values the update path can return: errShouldNotReach for a
duplicate tweet and for duplicate stored users. -/
inductive UpdateError where
  | duplicateTweet
  | duplicateUsers
deriving Repr, DecidableEq

/-- Embeds equalsUser of main.go: fieldwise comparison of the eight
attribute fields (the uid field is not compared). -/
def equalsUser (src dst : TwitterUser) : Bool :=
  src.userID == dst.userID &&
  src.userName == dst.userName &&
  src.screenName == dst.screenName &&
  src.description == dst.description &&
  src.friendsCount == dst.friendsCount &&
  src.verified == dst.verified &&
  src.profileBannerURL == dst.profileBannerURL &&
  src.profileImageURL == dst.profileImageURL

/-- Embeds queryUser of main.go: look up the stored users matching the
sighting by user_id; more than one match is an invariant failure (logged),
no match yields nothing, one differing match yields the stored record
verbatim, and one equal match yields a record holding only the stored uid.
The second component is the log lines written. -/
def queryUser (db : DB) (src : TwitterUser) :
    Except UpdateError (Option TwitterUser) × List String :=
  let all := db.users.filter (fun u => u.userID == src.userID)
  if all.length > 1 then
    (Except.error UpdateError.duplicateUsers,
     ["found duplicate users in Dgraph with id: "
       ++ (all.headD {}).userID])
  else
    match all with
    | [] => (Except.ok none, [])
    | u :: _ =>
      if equalsUser src u then (Except.ok (some { uid := u.uid }), [])
      else (Except.ok (some u), [])

/-- The mention loop of updateFilteredTweet: query each mention in order,
stopping at the first error, and substitute the returned record when the
user already exists. -/
def updateMentions (db : DB) :
    List TwitterUser → Except UpdateError (List TwitterUser) × List String
  | [] => (Except.ok [], [])
  | m :: rest =>
    match queryUser db m with
    | (Except.error e, logs) => (Except.error e, logs)
    | (Except.ok found, logs) =>
      let m2 := match found with
                | none => m
                | some u => u
      match updateMentions db rest with
      | (Except.error e, logs2) => (Except.error e, logs ++ logs2)
      | (Except.ok ms, logs2) => (Except.ok (m2 :: ms), logs ++ logs2)

/-- Embeds updateFilteredTweet of main.go: first query the tweet id and stop
with errShouldNotReach on a duplicate (logged), then resolve the author and
every mention, substituting stored records for existing users. -/
def updateFilteredTweet (db : DB) (ft : TwitterTweet) :
    Except UpdateError TwitterTweet × List String :=
  if (db.posts.filter (fun p => p == ft.idStr)).length > 0 then
    (Except.error UpdateError.duplicateTweet,
     ["found duplicate tweet with id: " ++ ft.idStr])
  else
    match queryUser db ft.author with
    | (Except.error e, logs) => (Except.error e, logs)
    | (Except.ok authorFound, logs1) =>
      let ft1 := match authorFound with
                 | none => ft
                 | some u => { ft with author := u }
      match updateMentions db ft1.mention with
      | (Except.error e, logs2) => (Except.error e, logs1 ++ logs2)
      | (Except.ok ms, logs2) =>
        (Except.ok { ft1 with mention := ms }, logs1 ++ logs2)

/-- Outcome of one record in this variant: committed, or skipped with the
error updateFilteredTweet returned (runInserter counts the skip in
ErrorsDgraph and continues with the next record, submitting no mutation). -/
inductive Outcome where
  | committed
  | skipped (e : UpdateError)
deriving Repr, DecidableEq

/-- Modelled from the spec: the successful commit of the mutation on the
external graph backend, which is outside this repository. Per the external
interface description, the submitted record (whose uid is unset) is stored
as a new Post node keyed by its id_str. Only the Post table is affected;
the stored User table is read by this code path and updated only through
the same mutation, which this model keeps out of scope of the claims that
use it. -/
def commitDB (db : DB) (ft : TwitterTweet) : DB :=
  { db with posts := db.posts ++ [ft.idStr] }

/-- One record of the runInserter loop of main.go on the success path of the
backend: resolve through updateFilteredTweet; an error skips the record
without submitting any mutation; otherwise the mutation is submitted and
commits. Returns the backend state, the outcome, and the log lines. -/
def processRecord (db : DB) (ft : TwitterTweet) :
    DB × Outcome × List String :=
  match updateFilteredTweet db ft with
  | (Except.error e, logs) => (db, Outcome.skipped e, logs)
  | (Except.ok ft2, logs) => (commitDB db ft2, Outcome.committed, logs)

/-- Sequential processing of a list of records. -/
def processAll (db : DB) : List TwitterTweet → DB
  | [] => db
  | ft :: rest => processAll (processRecord db ft).1 rest

/-- A stored user record. -/
def storedUser : TwitterUser :=
  { uid := "0x42", userID := "12", userName := "old name", screenName := "s"
    description := "old bio", friendsCount := 10, verified := false }

/-- A later sighting of the same account with a changed display name. -/
def newSighting : TwitterUser :=
  { userID := "12", userName := "new name", screenName := "s"
    description := "old bio", friendsCount := 10, verified := false }

/-- A backend state holding just the stored user and no posts. -/
def dbOneUser : DB :=
  { posts := [], users := [storedUser] }

/-- A fresh canonical record to commit twice. -/
def freshRecord : TwitterTweet :=
  { idStr := "500", author := { userID := "12", userName := "old name",
                                screenName := "s", description := "old bio",
                                friendsCount := 10 } }

end MainGo

namespace Part8

theorem foldl_append_map {α β : Type} (f : α → β) (l : List α) :
    ∀ acc : List β, l.foldl (fun a x => a ++ [f x]) acc = acc ++ l.map f := by
  induction l with
  | nil => intro acc; simp
  | cons x rest ih => intro acc; simp [ih]

theorem foldl_hashtag_texts (l : List HashtagEntity) :
    ∀ acc : List String,
      l.foldl (fun a tag => if tag.text ≠ "" then a ++ [tag.text] else a) acc
        = acc ++ (l.map (fun tag => tag.text)).filter (fun s => !(s == "")) := by
  induction l with
  | nil => intro acc; simp
  | cons tag rest ih =>
    intro acc
    rw [List.foldl_cons]
    by_cases htext : tag.text = ""
    · rw [if_neg (fun hc => hc htext), ih]
      simp [htext]
    · rw [if_pos htext, ih]
      simp [htext]

/-- C6 (amended): for every raw post on which normalization succeeds, the
hashtags of the canonical record are the raw hashtag texts with empty
strings dropped, preserving order and keeping duplicate texts (no
deduplication is performed). -/
theorem hashtags_drop_empty_keep_duplicates
    (parse : String → Option String) (t : AnacondaTweet) (ft : TwitterTweet)
    (h : filterTweet parse (StreamMessage.tweet t) = Except.ok ft) :
    ft.hashTags
      = (t.entities.hashtags.map (fun tag => tag.text)).filter
          (fun s => !(s == "")) := by
  cases hp : parse t.createdAt with
  | none => simp [filterTweet, hp] at h
  | some c =>
    simp only [filterTweet, hp, Except.ok.injEq] at h
    subst h
    exact (foldl_hashtag_texts t.entities.hashtags []).trans (by simp)

theorem hashtags_drop_empty_keep_duplicates_witness :
    ((filterTweet parseAll (StreamMessage.tweet rawDupHashtags)).toOption.getD
        {}).hashTags = ["a", "a"] := by
  have h : filterTweet parseAll (StreamMessage.tweet rawDupHashtags)
      = Except.ok ((filterTweet parseAll
          (StreamMessage.tweet rawDupHashtags)).toOption.getD {}) := rfl
  rw [hashtags_drop_empty_keep_duplicates parseAll rawDupHashtags _ h]
  rfl

/-- C6 (counterexample): the raw post rawDupHashtags carries the hashtag
text a twice; the canonical record keeps both copies, so the hashtags are
not a deduplicated set as the claim states. -/
theorem hashtags_not_deduplicated :
    (filterTweet parseAll (StreamMessage.tweet rawDupHashtags)).toOption.map
        (fun ft => ft.hashTags) = some ["a", "a"]
    ∧ ¬ (["a", "a"] : List String).Nodup :=
  ⟨rfl, by decide⟩

/-- C7: evaluating the normalizer on a raw post with exactly one url entity
shows the canonical urls are not just the expanded url: the slice is
allocated with length one and then appended to, so a leading empty string
remains in front of the expanded url. -/
theorem urls_carry_leading_empty_strings :
    (filterTweet parseAll (StreamMessage.tweet rawOneUrl)).toOption.map
        (fun ft => ft.urls) = some ["", "https://example.com/x"] := rfl

/-- C8: for every raw post on which normalization succeeds, the mention list
of the canonical record has one entry per mention entity of the raw post, in
the order of the raw post, built from the entity fields, and repeated
mentions of the same external id are kept (no deduplication). -/
theorem mentions_in_order_without_dedup
    (parse : String → Option String) (t : AnacondaTweet) (ft : TwitterTweet)
    (h : filterTweet parse (StreamMessage.tweet t) = Except.ok ft) :
    ft.mention
      = t.entities.user_mentions.map (fun m =>
          ({ userID := m.id_str, dgraphType := "User", userName := m.name,
             screenName := m.screen_name } : TwitterUser)) := by
  cases hp : parse t.createdAt with
  | none => simp [filterTweet, hp] at h
  | some c =>
    simp only [filterTweet, hp, Except.ok.injEq] at h
    subst h
    exact (foldl_append_map (fun m : MentionEntity =>
      ({ userID := m.id_str, dgraphType := "User", userName := m.name,
         screenName := m.screen_name } : TwitterUser))
      t.entities.user_mentions []).trans (by simp)

theorem mentions_in_order_without_dedup_witness :
    ((filterTweet parseAll (StreamMessage.tweet rawRepeatMentions)).toOption.getD
        {}).mention
      = [{ userID := "77", dgraphType := "User", userName := "w",
           screenName := "w7" },
         { userID := "77", dgraphType := "User", userName := "w",
           screenName := "w7" }] := by
  have h : filterTweet parseAll (StreamMessage.tweet rawRepeatMentions)
      = Except.ok ((filterTweet parseAll
          (StreamMessage.tweet rawRepeatMentions)).toOption.getD {}) := rfl
  rw [mentions_in_order_without_dedup parseAll rawRepeatMentions _ h]
  rfl

/-- C9: whenever normalization of a stream message fails, the worker counts
the message, adds exactly one to the json-error counter, and submits no
backend request at all, leaving the commit counter and every other counter
unchanged; a non-tweet message fails with notATweet and an unparsable
creation time fails with malformedTimestamp. -/
theorem normalize_failure_counts_one_json_error
    (parse : String → Option String) (backend : Nat → DgraphResult)
    (commitNow : Bool) (msg : StreamMessage) (e : NormalizeError)
    (h : filterTweet parse msg = Except.error e) :
    runInserterStep parse backend commitNow msg
      = ({ tweets := 1, errorsJSON := 1 }, [])
    ∧ filterTweet parse StreamMessage.other
        = Except.error NormalizeError.notATweet
    ∧ (∀ t : AnacondaTweet, parse t.createdAt = none →
        filterTweet parse (StreamMessage.tweet t)
          = Except.error NormalizeError.malformedTimestamp) := by
  refine ⟨?_, rfl, ?_⟩
  · simp [runInserterStep, h]
  · intro t hp
    simp [filterTweet, hp]

theorem normalize_failure_counts_one_json_error_witness :
    runInserterStep parseNone (fun _ => DgraphResult.ok) true
        StreamMessage.other
      = ({ tweets := 1, errorsJSON := 1 }, []) :=
  (normalize_failure_counts_one_json_error parseNone
    (fun _ => DgraphResult.ok) true StreamMessage.other
    NormalizeError.notATweet rfl).1

/-- C3: when the first commit attempt fails retry-advised, the executor
makes exactly one retry after the fixed 100 millisecond delay (two attempts
in total, one bump of the retry counter); if the retry also fails
retry-advised, no third attempt is made and the record ends in the failure
branch with the conflict error. -/
theorem conflict_retried_exactly_once
    (backend : Nat → DgraphResult) (commitNow : Bool)
    (h0 : backend 0 = DgraphResult.retryAdvised) :
    (runMutation backend commitNow).attempts = 2
    ∧ (runMutation backend commitNow).retriesCounted = 1
    ∧ (∃ rest, (runMutation backend commitNow).sleepsMs = 100 :: rest)
    ∧ (backend 1 = DgraphResult.retryAdvised →
        runMutation backend commitNow
          = { attempts := 2, retriesCounted := 1, sleepsMs := [100],
              outcome := CommitOutcome.failedDgraph
                DgraphResult.retryAdvised }) := by
  cases hb : backend 1 <;>
    refine ⟨?_, ?_, ?_, ?_⟩ <;>
      simp [runMutation, runAttempts, h0, hb]

theorem conflict_retried_exactly_once_witness :
    runMutation (fun _ => DgraphResult.retryAdvised) true
      = { attempts := 2, retriesCounted := 1, sleepsMs := [100],
          outcome := CommitOutcome.failedDgraph DgraphResult.retryAdvised } :=
  (conflict_retried_exactly_once (fun _ => DgraphResult.retryAdvised) true
    rfl).2.2.2 rfl

/-- C5 (amended): when the first commit attempt fails with connection
refused, the executor waits the fixed 5 second cooldown and neither retries
nor requeues the record; no failure counter (and no counter at all) is
incremented for it, and processing moves on. -/
theorem connection_refused_cooldown_uncounted
    (backend : Nat → DgraphResult) (commitNow : Bool)
    (h0 : backend 0 = DgraphResult.connectionRefused) :
    runMutation backend commitNow
      = { attempts := 1, retriesCounted := 0, sleepsMs := [5000],
          outcome := CommitOutcome.transientWait }
    ∧ statsDelta (runMutation backend commitNow) = {} := by
  constructor <;> simp [runMutation, runAttempts, h0, statsDelta]

theorem connection_refused_cooldown_uncounted_witness :
    runMutation (fun _ => DgraphResult.connectionRefused) false
      = { attempts := 1, retriesCounted := 0, sleepsMs := [5000],
          outcome := CommitOutcome.transientWait } :=
  (connection_refused_cooldown_uncounted
    (fun _ => DgraphResult.connectionRefused) false rfl).1

theorem string_append_length_pos (a b : String) (h : 0 < a.length) :
    0 < (a ++ b).length := by
  rw [String.length_append]; omega

theorem mentionQueryFmt_ne_empty (v id : String) :
    mentionQueryFmt ("m" ++ v) id ≠ "" := by
  intro hc
  have hp : 0 < (mentionQueryFmt ("m" ++ v) id).length :=
    string_append_length_pos _ _ (string_append_length_pos _ _
      (string_append_length_pos _ _ (string_append_length_pos _ _
        (by decide))))
  rw [hc] at hp
  exact absurd hp (by decide)

theorem tweetQueryFmt_ne_empty (id : String) : tweetQueryFmt id ≠ "" := by
  intro hc
  have hp : 0 < (tweetQueryFmt id).length :=
    string_append_length_pos _ _ (string_append_length_pos _ _ (by decide))
  rw [hc] at hp
  exact absurd hp (by decide)

theorem userQueryFmt_u_ne_empty (id : String) : userQueryFmt "u" id ≠ "" := by
  intro hc
  have hp : 0 < (userQueryFmt "u" id).length :=
    string_append_length_pos _ _ (string_append_length_pos _ _
      (string_append_length_pos _ _ (by decide)))
  rw [hc] at hp
  exact absurd hp (by decide)

theorem lookupVar_append_some (L : List (String × String)) (id v : String) :
    ∀ M : List (String × String), lookupVar M id = some v →
      lookupVar (M ++ L) id = some v := by
  intro M
  induction M with
  | nil => intro h; simp [lookupVar] at h
  | cons kv rest ih =>
    intro h
    rw [List.cons_append]
    by_cases hk : kv.1 = id
    · simp only [lookupVar, if_pos hk] at h ⊢
      exact h
    · simp only [lookupVar, if_neg hk] at h ⊢
      exact ih h

theorem lookupVar_append_new (id v : String) :
    ∀ M : List (String × String), lookupVar M id = none →
      lookupVar (M ++ [(id, v)]) id = some v := by
  intro M
  induction M with
  | nil => simp [lookupVar]
  | cons kv rest ih =>
    intro h
    rw [List.cons_append]
    by_cases hk : kv.1 = id
    · simp only [lookupVar, if_pos hk] at h
      exact Option.noConfusion h
    · simp only [lookupVar, if_neg hk] at h ⊢
      exact ih h

theorem lookupVar_none_iff (id : String) :
    ∀ M : List (String × String),
      lookupVar M id = none ↔ id ∉ M.map Prod.fst := by
  intro M
  induction M with
  | nil => simp [lookupVar]
  | cons kv rest ih =>
    by_cases hk : kv.1 = id
    · simp [lookupVar, hk]
    · simp [lookupVar, hk, ih, Ne.symm hk]

theorem buildQueryLoop_map_extends (id v : String) :
    ∀ (ms : List TwitterUser) (i : Nat) (M : List (String × String))
      (q : List String), lookupVar M id = some v →
      lookupVar (buildQueryLoop ms i M q).2.1 id = some v := by
  intro ms
  induction ms with
  | nil => intro i M q h; simpa [buildQueryLoop] using h
  | cons user rest ih =>
    intro i M q h
    cases hl : lookupVar M user.userID with
    | some name =>
      simp only [buildQueryLoop, hl]
      exact ih _ _ _ h
    | none =>
      simp only [buildQueryLoop, hl]
      exact ih _ _ _ (lookupVar_append_some _ _ _ _ h)

theorem buildQueryLoop_uid_assignment :
    ∀ (ms : List TwitterUser) (i : Nat) (M : List (String × String))
      (q : List String) (u : TwitterUser),
      u ∈ (buildQueryLoop ms i M q).2.2 →
      ∃ v, lookupVar (buildQueryLoop ms i M q).2.1 u.userID = some v
        ∧ u.uid = "uid(" ++ v ++ ")" := by
  intro ms
  induction ms with
  | nil => intro i M q u hu; simp [buildQueryLoop] at hu
  | cons user rest ih =>
    intro i M q u hu
    cases hl : lookupVar M user.userID with
    | some name =>
      simp only [buildQueryLoop, hl] at hu ⊢
      rcases List.mem_cons.mp hu with rfl | hu2
      · exact ⟨name, buildQueryLoop_map_extends _ _ _ _ _ _ hl, rfl⟩
      · exact ih _ _ _ _ hu2
    | none =>
      simp only [buildQueryLoop, hl] at hu ⊢
      rcases List.mem_cons.mp hu with rfl | hu2
      · exact ⟨"m" ++ toString (i + 1),
          buildQueryLoop_map_extends _ _ _ _ _ _
            (lookupVar_append_new _ _ _ hl), rfl⟩
      · exact ih _ _ _ _ hu2

theorem set_append_len (a x : String) :
    ∀ (pre xs : List String),
      (pre ++ x :: xs).set pre.length a = pre ++ a :: xs := by
  intro pre
  induction pre with
  | nil => intro xs; simp
  | cons p ps ih => intro xs; simp [List.set, ih]

theorem buildQueryLoop_slots :
    ∀ (ms : List TwitterUser) (i : Nat) (M : List (String × String))
      (pre : List String), pre.length = i + 2 →
      (buildQueryLoop ms i M (pre ++ List.replicate ms.length "")).1
        = pre ++ slotsOf ms i M := by
  intro ms
  induction ms with
  | nil => intro i M pre hl; simp [buildQueryLoop, slotsOf]
  | cons user rest ih =>
    intro i M pre hl
    cases hu : lookupVar M user.userID with
    | some name =>
      simp only [buildQueryLoop, hu, slotsOf]
      have hsplit : pre ++ List.replicate (user :: rest).length ("" : String)
          = (pre ++ [""]) ++ List.replicate rest.length "" := by
        simp [List.replicate_succ, List.append_assoc]
      rw [hsplit, ih (i + 1) M (pre ++ [""])
        (by rw [List.length_append, hl]; rfl)]
      simp
    | none =>
      simp only [buildQueryLoop, hu, slotsOf]
      have hset : (pre ++ List.replicate (user :: rest).length ("" : String)).set
            (i + 2) (mentionQueryFmt ("m" ++ toString (i + 1)) user.userID)
          = (pre ++ [mentionQueryFmt ("m" ++ toString (i + 1)) user.userID])
              ++ List.replicate rest.length "" := by
        have h1 : pre ++ List.replicate (user :: rest).length ("" : String)
            = pre ++ "" :: List.replicate rest.length "" := by
          simp [List.replicate_succ]
        rw [h1, ← hl, set_append_len]
        simp
      rw [hset, ih (i + 1) _
        (pre ++ [mentionQueryFmt ("m" ++ toString (i + 1)) user.userID])
        (by rw [List.length_append, hl]; rfl)]
      simp

theorem countNonEmpty_slotsOf :
    ∀ (ms : List TwitterUser) (i : Nat) (M : List (String × String)),
      countNonEmpty (slotsOf ms i M)
        = countNew (ms.map (fun u => u.userID)) (M.map Prod.fst) := by
  intro ms
  induction ms with
  | nil => intro i M; simp [slotsOf, countNew, countNonEmpty]
  | cons user rest ih =>
    intro i M
    cases hu : lookupVar M user.userID with
    | some name =>
      have hmem : user.userID ∈ M.map Prod.fst := by
        by_contra hc
        rw [(lookupVar_none_iff user.userID M).mpr hc] at hu
        exact Option.noConfusion hu
      simp [slotsOf, hu, countNonEmpty, countNew, hmem, ih]
    | none =>
      have hmem : user.userID ∉ M.map Prod.fst :=
        (lookupVar_none_iff _ _).mp hu
      have hne : mentionQueryFmt ("m" ++ toString (i + 1)) user.userID ≠ "" :=
        mentionQueryFmt_ne_empty _ _
      simp [slotsOf, hu, countNonEmpty, countNew, hmem, hne, ih,
        List.map_append]
      omega

theorem countNew_add_card :
    ∀ (ids seen : List String), seen.Nodup →
      countNew ids seen + seen.toFinset.card
        = ((ids ++ seen).toFinset).card := by
  intro ids
  induction ids with
  | nil => intro seen hnd; simp [countNew]
  | cons id rest ih =>
    intro seen hnd
    by_cases hmem : id ∈ seen
    · simp only [countNew]
      rw [if_pos hmem, ih seen hnd]
      have hts : ((id :: rest) ++ seen).toFinset
          = (rest ++ seen).toFinset := by
        rw [List.cons_append, List.toFinset_cons]
        exact Finset.insert_eq_self.mpr (by simp [hmem])
      rw [hts]
    · simp only [countNew]
      rw [if_neg hmem]
      have hnd2 : (seen ++ [id]).Nodup := by
        simp [List.nodup_append, hmem, hnd]
      have ih2 := ih (seen ++ [id]) hnd2
      have hsf : (seen ++ [id]).toFinset = insert id seen.toFinset := by
        rw [List.toFinset_eq_of_perm _ _ (List.perm_append_singleton id seen),
          List.toFinset_cons]
      have hcard : (seen ++ [id]).toFinset.card = seen.toFinset.card + 1 := by
        rw [hsf, Finset.card_insert_of_not_mem (by simp [hmem])]
      have hperm : List.Perm (rest ++ (seen ++ [id])) (id :: (rest ++ seen)) := by
        rw [← List.append_assoc]
        exact List.perm_append_singleton id (rest ++ seen)
      have hts : (rest ++ (seen ++ [id])).toFinset
          = ((id :: rest) ++ seen).toFinset := by
        rw [List.cons_append]
        exact List.toFinset_eq_of_perm _ _ hperm
      rw [← hts]
      omega

/-- C2: the upsert plan of buildQuery assigns the same uid placeholder to
every occurrence of the same user external id inside one record (author and
repeated mentions collapse onto one placeholder), and the query slots hold
exactly one non-empty lookup for the post plus one per distinct user
external id among author and mentions, and no more. -/
theorem upsert_plan_one_lookup_per_user (tweet : TwitterTweet) :
    (∀ u1, u1 ∈ (buildQuery tweet).tweet.author :: (buildQuery tweet).tweet.mention →
      ∀ u2, u2 ∈ (buildQuery tweet).tweet.author :: (buildQuery tweet).tweet.mention →
        u1.userID = u2.userID → u1.uid = u2.uid)
    ∧ countNonEmpty (buildQuery tweet).slots
        = 1 + ((tweet.author.userID ::
            tweet.mention.map (fun u => u.userID)).toFinset).card := by
  constructor
  · have hphi : ∀ u, u ∈ (buildQuery tweet).tweet.author ::
        (buildQuery tweet).tweet.mention →
        ∃ v, lookupVar (buildQueryLoop tweet.mention 0
            [(tweet.author.userID, "u")]
            ([tweetQueryFmt tweet.idStr, userQueryFmt "u" tweet.author.userID]
              ++ List.replicate tweet.mention.length "")).2.1 u.userID = some v
          ∧ u.uid = "uid(" ++ v ++ ")" := by
      intro u hu
      rcases List.mem_cons.mp hu with rfl | hu2
      · refine ⟨"u", ?_, ?_⟩
        · show lookupVar (buildQueryLoop tweet.mention 0
              [(tweet.author.userID, "u")]
              ([tweetQueryFmt tweet.idStr,
                userQueryFmt "u" tweet.author.userID]
                ++ List.replicate tweet.mention.length "")).2.1
              tweet.author.userID = some "u"
          exact buildQueryLoop_map_extends _ _ _ _ _ _ (by simp [lookupVar])
        · show ("uid(u)" : String) = "uid(" ++ "u" ++ ")"
          rfl
      · exact buildQueryLoop_uid_assignment _ _ _ _ _ hu2
    intro u1 h1 u2 h2 heq
    obtain ⟨v1, hv1, hu1⟩ := hphi u1 h1
    obtain ⟨v2, hv2, hu2⟩ := hphi u2 h2
    rw [heq] at hv1
    have hv : v1 = v2 := Option.some.inj (hv1.symm.trans hv2)
    rw [hu1, hu2, hv]
  · have hslots := buildQueryLoop_slots tweet.mention 0
      [(tweet.author.userID, "u")]
      [tweetQueryFmt tweet.idStr, userQueryFmt "u" tweet.author.userID] rfl
    have key : countNonEmpty (buildQuery tweet).slots
        = 2 + countNew (tweet.mention.map (fun u => u.userID))
            [tweet.author.userID] := by
      have h1 := congrArg countNonEmpty hslots
      have h2 : countNonEmpty (buildQuery tweet).slots
          = countNonEmpty ([tweetQueryFmt tweet.idStr,
              userQueryFmt "u" tweet.author.userID]
              ++ slotsOf tweet.mention 0 [(tweet.author.userID, "u")]) := h1
      rw [h2]
      have h4 : ([tweetQueryFmt tweet.idStr,
            userQueryFmt "u" tweet.author.userID] : List String)
            ++ slotsOf tweet.mention 0 [(tweet.author.userID, "u")]
          = tweetQueryFmt tweet.idStr :: userQueryFmt "u" tweet.author.userID
              :: slotsOf tweet.mention 0 [(tweet.author.userID, "u")] := rfl
      rw [h4]
      simp only [countNonEmpty]
      rw [if_neg (tweetQueryFmt_ne_empty tweet.idStr),
        if_neg (userQueryFmt_u_ne_empty tweet.author.userID),
        countNonEmpty_slotsOf]
      have h3 : ([(tweet.author.userID, "u")].map Prod.fst)
          = [tweet.author.userID] := rfl
      rw [h3]
      omega
    have hcard := countNew_add_card
      (tweet.mention.map (fun u => u.userID)) [tweet.author.userID] (by simp)
    have hone : ([tweet.author.userID].toFinset).card = 1 := by simp
    have hperm : ((tweet.mention.map (fun u => u.userID)
          ++ [tweet.author.userID]).toFinset)
        = ((tweet.author.userID ::
            tweet.mention.map (fun u => u.userID)).toFinset) :=
      List.toFinset_eq_of_perm _ _
        (List.perm_append_singleton tweet.author.userID
          (tweet.mention.map (fun u => u.userID)))
    rw [hone, hperm] at hcard
    rw [key]
    omega

theorem upsert_plan_one_lookup_per_user_witness :
    (buildQuery recordForPlan).tweet.author.uid
        = ((buildQuery recordForPlan).tweet.mention.headD {}).uid
    ∧ countNonEmpty (buildQuery recordForPlan).slots = 3 := by
  constructor
  · exact (upsert_plan_one_lookup_per_user recordForPlan).1
      _ (by decide) _ (by decide) (by decide)
  · rw [(upsert_plan_one_lookup_per_user recordForPlan).2]
    decide

/-- C5 (counterexample): on a connection-refused attempt the record is not
counted as a failure: both failure counters stay at zero for it. -/
theorem connection_refused_not_counted :
    runMutation (fun _ => DgraphResult.connectionRefused) true
      = { attempts := 1, retriesCounted := 0, sleepsMs := [5000],
          outcome := CommitOutcome.transientWait }
    ∧ (statsDelta (runMutation
        (fun _ => DgraphResult.connectionRefused) true)).failures = 0
    ∧ (statsDelta (runMutation
        (fun _ => DgraphResult.connectionRefused) true)).errorsDgraph = 0 :=
  ⟨rfl, rfl, rfl⟩

end Part8

namespace MainGo

theorem posts_filter_pos_iff (id : String) :
    ∀ l : List String,
      0 < (l.filter (fun p => p == id)).length ↔ id ∈ l := by
  intro l
  induction l with
  | nil => simp
  | cons a rest ih =>
    by_cases ha : a = id
    · simp [List.filter_cons, ha]
    · simp [List.filter_cons, ha, ih, Ne.symm ha]

theorem users_filter_nil_of_ne (k : String) :
    ∀ l : List TwitterUser, (∀ b, b ∈ l → b.userID ≠ k) →
      l.filter (fun u => u.userID == k) = [] := by
  intro l
  induction l with
  | nil => intro _; rfl
  | cons a rest ih =>
    intro hall
    rw [List.filter_cons,
      if_neg (by simp [hall a (List.mem_cons_self a rest)])]
    exact ih (fun b hb => hall b (List.mem_cons_of_mem a hb))

theorem users_filter_singleton (k : String) (stored : TwitterUser) :
    ∀ l : List TwitterUser,
      List.Pairwise (fun a b => a.userID ≠ b.userID) l →
      stored ∈ l → stored.userID = k →
      l.filter (fun u => u.userID == k) = [stored] := by
  intro l
  induction l with
  | nil => intro _ hm; simp at hm
  | cons a rest ih =>
    intro hpw hm hk
    obtain ⟨hhead, htail⟩ := List.pairwise_cons.mp hpw
    rcases List.mem_cons.mp hm with rfl | hm2
    · rw [List.filter_cons, if_pos (by simp [hk])]
      rw [users_filter_nil_of_ne k rest
        (fun b hb hbk => hhead b hb (by rw [hk, hbk]))]
    · have hane : ¬ (a.userID = k) := fun hak =>
        hhead stored hm2 (by rw [hak, hk])
      rw [List.filter_cons, if_neg (by simp [hane])]
      exact ih htail hm2 hk

theorem users_filter_len_le (k : String) :
    ∀ l : List TwitterUser,
      List.Pairwise (fun a b => a.userID ≠ b.userID) l →
      (l.filter (fun u => u.userID == k)).length ≤ 1 := by
  intro l
  induction l with
  | nil => intro _; simp
  | cons a rest ih =>
    intro hpw
    obtain ⟨hhead, htail⟩ := List.pairwise_cons.mp hpw
    by_cases hk : a.userID = k
    · rw [List.filter_cons, if_pos (by simp [hk])]
      rw [users_filter_nil_of_ne k rest
        (fun b hb hbk => hhead b hb (by rw [hk, hbk]))]
      simp
    · rw [List.filter_cons, if_neg (by simp [hk])]
      exact ih htail

theorem queryUser_ok (db : DB) (src : TwitterUser)
    (hpw : List.Pairwise (fun a b => a.userID ≠ b.userID) db.users) :
    ∃ o, queryUser db src = (Except.ok o, []) := by
  have hlen := users_filter_len_le src.userID db.users hpw
  cases hf : db.users.filter (fun u => u.userID == src.userID) with
  | nil => exact ⟨none, by simp [queryUser, hf]⟩
  | cons u t =>
    cases t with
    | nil =>
      by_cases he : equalsUser src u
      · exact ⟨some { uid := u.uid }, by simp [queryUser, hf, he]⟩
      · exact ⟨some u, by simp [queryUser, hf, he]⟩
    | cons v t2 =>
      rw [hf] at hlen
      simp at hlen

theorem updateMentions_ok (db : DB)
    (hpw : List.Pairwise (fun a b => a.userID ≠ b.userID) db.users) :
    ∀ ms : List TwitterUser,
      ∃ ms2, updateMentions db ms = (Except.ok ms2, []) := by
  intro ms
  induction ms with
  | nil => exact ⟨[], rfl⟩
  | cons m rest ih =>
    obtain ⟨o, ho⟩ := queryUser_ok db m hpw
    obtain ⟨ms2, hms⟩ := ih
    cases o with
    | none => exact ⟨m :: ms2, by simp [updateMentions, ho, hms]⟩
    | some u => exact ⟨u :: ms2, by simp [updateMentions, ho, hms]⟩

theorem updateFilteredTweet_ok (db : DB) (ft : TwitterTweet)
    (hpw : List.Pairwise (fun a b => a.userID ≠ b.userID) db.users)
    (hfresh : ft.idStr ∉ db.posts) :
    ∃ ft2, updateFilteredTweet db ft = (Except.ok ft2, [])
      ∧ ft2.idStr = ft.idStr := by
  have hcond : ¬ ((db.posts.filter (fun p => p == ft.idStr)).length > 0) := by
    rw [gt_iff_lt, posts_filter_pos_iff]
    exact hfresh
  obtain ⟨o, ho⟩ := queryUser_ok db ft.author hpw
  cases o with
  | none =>
    obtain ⟨ms2, hms⟩ := updateMentions_ok db hpw ft.mention
    exact ⟨{ ft with mention := ms2 },
      by simp [updateFilteredTweet, hcond, ho, hms], rfl⟩
  | some u =>
    obtain ⟨ms2, hms⟩ := updateMentions_ok db hpw ft.mention
    exact ⟨{ ft with author := u, mention := ms2 },
      by simp [updateFilteredTweet, hcond, ho, hms], rfl⟩

theorem updateFilteredTweet_ok_inv (db : DB) (ft ft2 : TwitterTweet)
    (logs : List String)
    (h : updateFilteredTweet db ft = (Except.ok ft2, logs)) :
    ft2.idStr = ft.idStr ∧ ft.idStr ∉ db.posts := by
  by_cases hcond : (db.posts.filter (fun p => p == ft.idStr)).length > 0
  · simp [updateFilteredTweet, hcond] at h
  · have hfresh : ft.idStr ∉ db.posts := by
      rw [gt_iff_lt, posts_filter_pos_iff] at hcond
      exact hcond
    refine ⟨?_, hfresh⟩
    rcases hq : queryUser db ft.author with ⟨exc, logs1⟩
    cases exc with
    | error e => simp [updateFilteredTweet, hcond, hq] at h
    | ok found =>
      cases found with
      | none =>
        rcases hm : updateMentions db ft.mention with ⟨exc2, logs2⟩
        cases exc2 with
        | error e => simp [updateFilteredTweet, hcond, hq, hm] at h
        | ok ms =>
          simp [updateFilteredTweet, hcond, hq, hm] at h
          rw [← h.1]
      | some u =>
        rcases hm : updateMentions db ft.mention with ⟨exc2, logs2⟩
        cases exc2 with
        | error e => simp [updateFilteredTweet, hcond, hq, hm] at h
        | ok ms =>
          simp [updateFilteredTweet, hcond, hq, hm] at h
          rw [← h.1]

theorem processRecord_duplicate (d : DB) (g : TwitterTweet)
    (hdup : g.idStr ∈ d.posts) :
    processRecord d g = (d, Outcome.skipped UpdateError.duplicateTweet,
      ["found duplicate tweet with id: " ++ g.idStr]) := by
  have hcond : (d.posts.filter (fun p => p == g.idStr)).length > 0 := by
    rw [gt_iff_lt, posts_filter_pos_iff]
    exact hdup
  simp [processRecord, updateFilteredTweet, hcond]

theorem processRecord_nodup (db : DB) (ft : TwitterTweet)
    (h : db.posts.Nodup) : (processRecord db ft).1.posts.Nodup := by
  rcases hu : updateFilteredTweet db ft with ⟨exc, logs⟩
  cases exc with
  | error e =>
    simp only [processRecord, hu]
    exact h
  | ok ft2 =>
    obtain ⟨hid, hfresh⟩ := updateFilteredTweet_ok_inv db ft ft2 logs hu
    simp only [processRecord, hu, commitDB]
    rw [List.nodup_append]
    refine ⟨h, by simp, ?_⟩
    intro a ha hb
    simp at hb
    rw [hb, hid] at ha
    exact hfresh ha

theorem processAll_nodup :
    ∀ (l : List TwitterTweet) (d : DB), d.posts.Nodup →
      (processAll d l).posts.Nodup := by
  intro l
  induction l with
  | nil => intro d h; simpa [processAll] using h
  | cons ft rest ih =>
    intro d h
    simp only [processAll]
    exact ih _ (processRecord_nodup d ft h)

/-- C1: a record whose post external id already resolves to an existing
Post node is logged as a duplicate and skipped without submitting any
mutation (backend state unchanged); a fresh record commits, and a second
delivery of the same record is then skipped as the duplicate; sequential
processing therefore never commits two Post nodes for one external id (the
committed posts stay duplicate-free). -/
theorem duplicate_post_logged_and_skipped
    (db : DB) (ft : TwitterTweet)
    (husers : List.Pairwise (fun a b => a.userID ≠ b.userID) db.users)
    (hfresh : ft.idStr ∉ db.posts) :
    (∀ (d : DB) (g : TwitterTweet), g.idStr ∈ d.posts →
        processRecord d g = (d, Outcome.skipped UpdateError.duplicateTweet,
          ["found duplicate tweet with id: " ++ g.idStr]))
    ∧ (processRecord db ft).2.1 = Outcome.committed
    ∧ (processRecord (processRecord db ft).1 ft).2.1
        = Outcome.skipped UpdateError.duplicateTweet
    ∧ (processRecord (processRecord db ft).1 ft).1 = (processRecord db ft).1
    ∧ (∀ (d : DB) (l : List TwitterTweet), d.posts.Nodup →
        (processAll d l).posts.Nodup) := by
  obtain ⟨ft2, hok, hid⟩ := updateFilteredTweet_ok db ft husers hfresh
  have hcommit : processRecord db ft
      = (commitDB db ft2, Outcome.committed, []) := by
    simp [processRecord, hok]
  have hmem2 : ft.idStr ∈ (processRecord db ft).1.posts := by
    rw [hcommit]
    simp [commitDB, hid]
  refine ⟨fun d g hdup => processRecord_duplicate d g hdup, ?_, ?_, ?_,
    fun d l h => processAll_nodup l d h⟩
  · rw [hcommit]
  · rw [processRecord_duplicate _ _ hmem2]
  · rw [processRecord_duplicate _ _ hmem2]

theorem duplicate_post_logged_and_skipped_witness :
    (processRecord ({} : DB) freshRecord).2.1 = Outcome.committed
    ∧ (processRecord (processRecord ({} : DB) freshRecord).1
        freshRecord).2.1 = Outcome.skipped UpdateError.duplicateTweet := by
  have h := duplicate_post_logged_and_skipped {} freshRecord
    (by simp) (by simp)
  exact ⟨h.2.1, h.2.2.1⟩

/-- C10: when a sighting of a user resolves to an existing stored User node,
queryUser substitutes the stored node into the record: only the stored uid
when every stored attribute equals the new sighting, and the full stored
record verbatim when any attribute differs; either way the mutation carries
the stored attribute values and never the differing new ones, so committing
it never changes an attribute of the existing User node (first write wins). -/
theorem queryUser_first_write_wins
    (db : DB) (src stored : TwitterUser)
    (hpw : List.Pairwise (fun a b => a.userID ≠ b.userID) db.users)
    (hmem : stored ∈ db.users) (hid : stored.userID = src.userID) :
    (equalsUser src stored = true →
      queryUser db src = (Except.ok (some { uid := stored.uid }), []))
    ∧ (equalsUser src stored = false →
      queryUser db src = (Except.ok (some stored), [])) := by
  have hfilter := users_filter_singleton src.userID stored db.users
    hpw hmem hid
  constructor <;> intro he <;> simp [queryUser, hfilter, he]

theorem queryUser_first_write_wins_witness :
    queryUser dbOneUser newSighting = (Except.ok (some storedUser), []) := by
  have h := queryUser_first_write_wins dbOneUser newSighting storedUser
    (by decide) (by decide) (by decide)
  exact h.2 (by decide)

end MainGo

end Flock
